import Mathlib

/-!
Verification of the structured change diff and rendering engine of
`pkg/tools/tfe/get_plan_details.go`.

The Go functions `summarizeActions`, `actionSymbol`, `formatActionReason`,
`countActions`, `buildAttributeDiff`, `writeMapValues`, `writeDiff`,
`mergeKeys`, `sortStrings`, `formatValue`, `valuesEqual` and
`writeResourceChange` are embedded shallowly below.  Conventions used by the
embedding:

* Go `interface` values decoded from JSON become the inductive type `JValue`.
  A Go `map[string]interface` becomes an association list
  `List (String × JValue)`; the list order stands for the map's native
  iteration order (which Go does not fix).  Real Go maps always have unique
  keys; the embedding states that explicitly where a proof needs it.
* JSON numbers decode to Go `float64`.  Every finite `float64` is a rational
  number, so the number payload is modelled as `ℚ`.  The integral test
  `v == float64(int64(v))` becomes `q.den = 1`.
* Go string indexing and `len` count bytes; the embedding counts characters,
  which agrees for ASCII content (the spec fixes character thresholds for
  ASCII-heavy content).
* The insertion sort `sortStrings` is modelled by `List.insertionSort` on the
  string order (byte-lexicographic in Go, which agrees with the
  codepoint-lexicographic `String` order for valid Unicode).
-/

set_option maxRecDepth 40000

namespace GetPlanDetails

/-- A JSON-like value, as produced by Go's `encoding/json` unmarshalling:
`nil`, `bool`, `float64`, `string`, `[]interface` and `map[string]interface`
are the only possible dynamic types.  The `float64` payload is modelled as an
exact rational (every finite IEEE-754 double is one). -/
inductive JValue where
  | null : JValue
  | bool : Bool → JValue
  | num : ℚ → JValue
  | str : String → JValue
  | arr : List JValue → JValue
  | obj : List (String × JValue) → JValue

/-- Go string slicing `s[:n]`, at character granularity. -/
def strTake (s : String) (n : Nat) : String :=
  ⟨s.data.take n⟩

/-- Go `strings.Repeat s n`. -/
def strRepeat (s : String) : Nat → String
  | 0 => ""
  | n + 1 => s ++ strRepeat s n

/-- Decimal digit character (used by the numeric formatting model). -/
def digitChar (n : Nat) : Char :=
  Char.ofNat (48 + n % 10)

/-- Lowercase hexadecimal digit character. -/
def hexDigit (n : Nat) : Char :=
  if n < 10 then Char.ofNat (48 + n) else Char.ofNat (87 + n)

/-- Two lowercase hex digits of a byte, as in Go's `\xHH` escapes. -/
def hexByte (n : Nat) : String :=
  ⟨[hexDigit (n / 16 % 16), hexDigit (n % 16)]⟩

/-- One character of Go's `%q` (`strconv.Quote`) output: standard short
escapes, `\xHH` for other non-printable ASCII, everything else verbatim. -/
def quoteChar (c : Char) : String :=
  if c = '"' then "\\\""
  else if c = '\\' then "\\\\"
  else if c = '\n' then "\\n"
  else if c = '\t' then "\\t"
  else if c = '\r' then "\\r"
  else if c = Char.ofNat 7 then "\\a"
  else if c = Char.ofNat 8 then "\\b"
  else if c = Char.ofNat 12 then "\\f"
  else if c = Char.ofNat 11 then "\\v"
  else if c.val < 32 ∨ c.val = 127 then "\\x" ++ hexByte c.val.toNat
  else String.singleton c

/-- Go `fmt.Sprintf("%q", s)`: a double-quoted Go string literal. -/
def goQuote (s : String) : String :=
  "\"" ++ String.join (s.data.map quoteChar) ++ "\""

/-- One character of `encoding/json` string escaping (HTML escaping on, the
`json.Marshal` default): `"` `\\` and control characters escaped, `<` `>` `&`
escaped as `\u00XX`, everything else verbatim. -/
def jsonEscapeChar (c : Char) : String :=
  if c = '"' then "\\\""
  else if c = '\\' then "\\\\"
  else if c = '\n' then "\\n"
  else if c = '\r' then "\\r"
  else if c = '\t' then "\\t"
  else if c = '<' then "\\u003c"
  else if c = '>' then "\\u003e"
  else if c = '&' then "\\u0026"
  else if c.val < 32 then "\\u00" ++ hexByte c.val.toNat
  else String.singleton c

/-- `encoding/json` encoding of a string value. -/
def jsonEscape (s : String) : String :=
  "\"" ++ String.join (s.data.map jsonEscapeChar) ++ "\""

/-- Fractional decimal digits of `num / den` (with `num < den`), fuelled.
All values reachable from finite doubles terminate well within the fuel. -/
def fracDigits (fuel num den : Nat) : String :=
  match fuel with
  | 0 => ""
  | fuel + 1 =>
    if num = 0 then ""
    else String.singleton (digitChar (num * 10 / den)) ++ fracDigits fuel (num * 10 % den) den

/-- Model of Go `fmt.Sprintf("%g", v)` for a non-integral `float64`, in the
range where `%g` chooses plain decimal notation: the exact terminating
decimal expansion of the rational value. -/
def formatG (q : ℚ) : String :=
  let sign := if q < 0 then "-" else ""
  let n := q.num.natAbs
  if n % q.den = 0 then sign ++ Nat.repr (n / q.den)
  else sign ++ Nat.repr (n / q.den) ++ "." ++ fracDigits 1200 (n % q.den) q.den

/-- The `float64` branch of `formatValue`: `%d` of `int64(v)` when the value
is integral (`v == float64(int64(v))`, i.e. denominator 1), else `%g`. -/
def formatFloat (q : ℚ) : String :=
  if q.den = 1 then toString q.num else formatG q

/-- Lexicographic comparison of character lists by codepoint, the order Go's
`sort.Strings` induces on (valid-Unicode) strings via byte comparison. -/
def charListLE : List Char → List Char → Bool
  | [], _ => true
  | _ :: _, [] => false
  | c :: cs, d :: ds =>
    if c.val.toNat < d.val.toNat then true
    else if d.val.toNat < c.val.toNat then false
    else charListLE cs ds

/-- Lexicographic string comparison (agrees with Go's byte comparison for
valid Unicode). -/
def strLEb (s t : String) : Bool :=
  charListLE s.data t.data

/-- Key order used when serializing a map deterministically: compare the
string keys lexicographically. -/
def keyLE {α : Type} (p q : String × α) : Prop :=
  strLEb p.1 q.1 = true

instance {α : Type} : DecidableRel (@keyLE α) := fun p q =>
  inferInstanceAs (Decidable (strLEb p.1 q.1 = true))

instance {α : Type} : IsTotal (String × α) keyLE := by
  constructor
  intro p q
  show strLEb p.1 q.1 = true ∨ strLEb q.1 p.1 = true
  unfold strLEb
  generalize p.1.data = x
  generalize q.1.data = y
  induction x generalizing y with
  | nil => exact Or.inl rfl
  | cons c cs ih =>
    cases y with
    | nil => exact Or.inr rfl
    | cons d ds =>
      rcases Nat.lt_trichotomy c.val.toNat d.val.toNat with h | h | h
      · exact Or.inl (by simp [charListLE, h])
      · rcases ih ds with h2 | h2
        · exact Or.inl (by
            simp only [charListLE]
            rw [if_neg (by omega), if_neg (by omega)]
            exact h2)
        · exact Or.inr (by
            simp only [charListLE]
            rw [if_neg (by omega), if_neg (by omega)]
            exact h2)
      · exact Or.inr (by simp [charListLE, h])

instance {α : Type} : IsTrans (String × α) keyLE := by
  constructor
  intro p q r
  show strLEb p.1 q.1 = true → strLEb q.1 r.1 = true → strLEb p.1 r.1 = true
  unfold strLEb
  generalize p.1.data = x
  generalize q.1.data = y
  generalize r.1.data = z
  induction x generalizing y z with
  | nil =>
    intro _ _
    rfl
  | cons c cs ih =>
    intro hxy hyz
    cases y with
    | nil => simp [charListLE] at hxy
    | cons d ds =>
      cases z with
      | nil => simp [charListLE] at hyz
      | cons e es =>
        rcases Nat.lt_trichotomy c.val.toNat d.val.toNat with hcd | hcd | hcd
        · rcases Nat.lt_trichotomy d.val.toNat e.val.toNat with hde | hde | hde
          · simp [charListLE, show c.val.toNat < e.val.toNat by omega]
          · simp [charListLE, show c.val.toNat < e.val.toNat by omega]
          · rw [show charListLE (d :: ds) (e :: es) =
                if d.val.toNat < e.val.toNat then true
                else if e.val.toNat < d.val.toNat then false
                else charListLE ds es from rfl,
              if_neg (by omega), if_pos (by omega)] at hyz
            exact absurd hyz (by simp)
        · rcases Nat.lt_trichotomy d.val.toNat e.val.toNat with hde | hde | hde
          · simp [charListLE, show c.val.toNat < e.val.toNat by omega]
          · rw [show charListLE (c :: cs) (d :: ds) =
                if c.val.toNat < d.val.toNat then true
                else if d.val.toNat < c.val.toNat then false
                else charListLE cs ds from rfl,
              if_neg (by omega), if_neg (by omega)] at hxy
            rw [show charListLE (d :: ds) (e :: es) =
                if d.val.toNat < e.val.toNat then true
                else if e.val.toNat < d.val.toNat then false
                else charListLE ds es from rfl,
              if_neg (by omega), if_neg (by omega)] at hyz
            rw [show charListLE (c :: cs) (e :: es) =
                if c.val.toNat < e.val.toNat then true
                else if e.val.toNat < c.val.toNat then false
                else charListLE cs es from rfl,
              if_neg (by omega), if_neg (by omega)]
            exact ih ds es hxy hyz
          · rw [show charListLE (d :: ds) (e :: es) =
                if d.val.toNat < e.val.toNat then true
                else if e.val.toNat < d.val.toNat then false
                else charListLE ds es from rfl,
              if_neg (by omega), if_pos (by omega)] at hyz
            exact absurd hyz (by simp)
        · rw [show charListLE (c :: cs) (d :: ds) =
              if c.val.toNat < d.val.toNat then true
              else if d.val.toNat < c.val.toNat then false
              else charListLE cs ds from rfl,
            if_neg (by omega), if_pos (by omega)] at hxy
          exact absurd hxy (by simp)

mutual

/-- Go `encoding/json.Marshal` of a JSON value tree: `null`, `true/false`,
numbers (integral floats without a decimal point), escaped strings, arrays in
element order, and objects with the keys sorted lexicographically (the
documented deterministic map encoding).  `Marshal` cannot fail on values
decoded from JSON (no NaN/Inf, no cycles), so the model is total. -/
def jsonMarshal : JValue → String
  | JValue.null => "null"
  | JValue.bool b => if b then "true" else "false"
  | JValue.num q => formatFloat q
  | JValue.str s => jsonEscape s
  | JValue.arr xs => "[" ++ String.intercalate "," (jsonMarshalList xs) ++ "]"
  | JValue.obj kvs =>
    "\x7b" ++
      String.intercalate ","
        ((List.insertionSort keyLE (jsonMarshalPairs kvs)).map
          (fun p => jsonEscape p.1 ++ ":" ++ p.2)) ++
      "\x7d"

def jsonMarshalList : List JValue → List String
  | [] => []
  | x :: xs => jsonMarshal x :: jsonMarshalList xs

def jsonMarshalPairs : List (String × JValue) → List (String × String)
  | [] => []
  | p :: rest => (p.1, jsonMarshal p.2) :: jsonMarshalPairs rest

end

/-- Go `valuesEqual`: deep equality via byte equality of the JSON
serializations (the error branch is unreachable for JSON-decoded values). -/
def valuesEqual (a b : JValue) : Bool :=
  jsonMarshal a == jsonMarshal b

mutual

/-- Go `formatValue`: display formatting with per-value truncation.
`formatList` is the element-wise recursion of the `[]interface` branch. -/
def formatValue : JValue → Nat → String
  | JValue.null, _ => "null"
  | JValue.str s, _ =>
    if s.length > 200 then goQuote (strTake s 200) ++ "... (truncated)"
    else goQuote s
  | JValue.num q, _ => formatFloat q
  | JValue.bool b, _ => if b then "true" else "false"
  | JValue.arr v, depth =>
    if v.length = 0 then "[]"
    else if depth > 2 then "[..." ++ toString v.length ++ " items]"
    else
      let items := formatList v (depth + 1)
      let joined := String.intercalate ", " items
      if joined.length > 200 then "[..." ++ toString v.length ++ " items]"
      else "[" ++ joined ++ "]"
  | JValue.obj v, depth =>
    if v.length = 0 then "\x7b\x7d"
    else if depth > 2 then "\x7b..." ++ toString v.length ++ " keys\x7d"
    else
      let s := jsonMarshal (JValue.obj v)
      if s.length > 200 then "\x7b..." ++ toString v.length ++ " keys\x7d"
      else s

def formatList : List JValue → Nat → List String
  | [], _ => []
  | x :: xs, depth => formatValue x depth :: formatList xs depth

end

/-- Go map read `m[key]` on the association-list model: first binding wins
(real Go maps have unique keys, so at most one binding exists). -/
def mapGet (m : List (String × JValue)) (key : String) : Option JValue :=
  match m with
  | [] => none
  | (k, v) :: rest => if k = key then some v else mapGet rest key

/-- The key list of a map. -/
def keys (m : List (String × JValue)) : List String :=
  m.map Prod.fst

/-- First-occurrence deduplication, as performed by the `seen` set in Go's
`mergeKeys` loop. -/
def firstDedup : List String → List String
  | [] => []
  | k :: rest => k :: firstDedup (rest.filter (fun x => x != k))
termination_by l => l.length
decreasing_by
  simp only [List.length_cons]
  exact Nat.lt_succ_of_le (List.length_filter_le _ rest)

/-- Go `sortStrings`: lexicographic (byte order) ascending sort, modelled by
insertion sort on the `String` order. -/
def sortStrings (l : List String) : List String :=
  List.insertionSort (· ≤ ·) l

/-- Go `mergeKeys`: deduplicated keys of both maps (keys of `a` first, then
unseen keys of `b`), sorted for deterministic output. -/
def mergeKeys (a b : List (String × JValue)) : List String :=
  sortStrings (firstDedup (keys a ++ keys b))

/-- Go `writeMapValues`: every binding in the map's native iteration order,
one `prefix indent key = value` line each (used for create/delete). -/
def writeMapValues (m : List (String × JValue)) (pfx : String) (depth : Nat) : String :=
  let indent := strRepeat "  " depth
  String.join (m.map (fun p => pfx ++ indent ++ p.1 ++ " = " ++ formatValue p.2 (depth + 1) ++ "\n"))

/-- The body of Go `writeDiff`'s per-key loop (`indent` is
`strRepeat "  " depth`, written inline). -/
def diffLine (before after : List (String × JValue)) (depth : Nat) (key : String) : String :=
  match mapGet before key, mapGet after key with
  | none, some aVal =>
    "+ " ++ strRepeat "  " depth ++ key ++ " = " ++ formatValue aVal (depth + 1) ++ "\n"
  | some bVal, none =>
    "- " ++ strRepeat "  " depth ++ key ++ " = " ++ formatValue bVal (depth + 1) ++ "\n"
  | some bVal, some aVal =>
    if valuesEqual bVal aVal then ""
    else
      "~ " ++ strRepeat "  " depth ++ key ++ " = " ++ formatValue bVal (depth + 1) ++ " -> " ++
        formatValue aVal (depth + 1) ++ "\n"
  | none, none => ""

/-- Go `writeDiff`: one pass over the merged sorted key list. -/
def writeDiff (before after : List (String × JValue)) (depth : Nat) : String :=
  String.join ((mergeKeys before after).map (diffLine before after depth))

/-- The body composed by Go `buildAttributeDiff` before the global cap. -/
def attrBody (before after : JValue) (action : String) : String :=
  if action = "create" then
    match after with
    | JValue.obj afterMap => writeMapValues afterMap "+ " 0
    | _ => ""
  else if action = "delete" then
    match before with
    | JValue.obj beforeMap => writeMapValues beforeMap "- " 0
    | _ => ""
  else if action = "update" ∨ action = "replace (delete, create)" ∨
      action = "replace (create, delete)" then
    match before, after with
    | JValue.obj beforeMap, JValue.obj afterMap => writeDiff beforeMap afterMap 0
    | _, _ => ""
  else ""

/-- Go `buildAttributeDiff`: the composed body, truncated to its first 4000
characters plus a fixed marker when it exceeds 4000 characters. -/
def buildAttributeDiff (before after : JValue) (action : String) : String :=
  let result := attrBody before after action
  if result.length > 4000 then
    strTake result 4000 ++ "\n... (diff truncated, too many changes to display)\n"
  else result

/-- Go `summarizeActions`: the action-list classifier. -/
def summarizeActions (actions : List String) : String :=
  match actions with
  | [a] =>
    if a = "create" then "create"
    else if a = "delete" then "delete"
    else if a = "update" then "update"
    else if a = "read" then "read"
    else if a = "no-op" then "no-op"
    else String.intercalate ", " [a]
  | [a, b] =>
    if a = "delete" ∧ b = "create" then "replace (delete, create)"
    else if a = "create" ∧ b = "delete" then "replace (create, delete)"
    else String.intercalate ", " [a, b]
  | other => String.intercalate ", " other

/-- Go `actionSymbol`. -/
def actionSymbol (action : String) : String :=
  if action = "create" then "+"
  else if action = "delete" then "-"
  else if action = "update" then "~"
  else if action = "replace (delete, create)" ∨ action = "replace (create, delete)" then "-/+"
  else if action = "read" then "<="
  else " "

/-- Go `formatActionReason`: known machine reason codes to human sentences,
everything else verbatim. -/
def formatActionReason (reason : String) : String :=
  if reason = "replace_because_tainted" then "resource is tainted, so must be replaced"
  else if reason = "replace_because_cannot_update" then
    "provider requires replacement to apply changes"
  else if reason = "replace_by_request" then "replacement was requested"
  else if reason = "delete_because_no_resource_config" then "no resource configuration found"
  else if reason = "delete_because_no_module" then "module instance no longer declared"
  else if reason = "delete_because_wrong_repetition" then
    "instance key not compatible with repetition mode"
  else if reason = "delete_because_count_index" then "count index out of range"
  else if reason = "delete_because_each_key" then "for_each key not in current configuration"
  else if reason = "read_because_config_unknown" then "configuration values unknown until apply"
  else if reason = "read_because_dependency_pending" then
    "depends on resource with pending changes"
  else reason

/-- The closed set of reason codes `formatActionReason` knows. -/
def knownReasons : List String :=
  ["replace_because_tainted", "replace_because_cannot_update", "replace_by_request",
   "delete_because_no_resource_config", "delete_because_no_module",
   "delete_because_wrong_repetition", "delete_because_count_index",
   "delete_because_each_key", "read_because_config_unknown",
   "read_because_dependency_pending"]

/-- The `change` object of one resource change (Go struct `change`). -/
structure Change where
  actions : List String
  before : JValue
  after : JValue

/-- One resource change record (the fields of Go struct `resourceChange` that
rendering reads). -/
structure ResourceChange where
  address : String
  change : Change
  actionReason : String

/-- Go `writeResourceChange`: header line, optional reason line, and the
fenced attribute diff. -/
def writeResourceChange (rc : ResourceChange) : String :=
  let action := summarizeActions rc.change.actions
  let symbol := actionSymbol action
  let header := "### " ++ symbol ++ " " ++ rc.address ++ " (" ++ action ++ ")\n"
  let reasonLine :=
    if rc.actionReason ≠ "" then "  *Reason: " ++ formatActionReason rc.actionReason ++ "*\n"
    else ""
  let diff := buildAttributeDiff rc.change.before rc.change.after action
  header ++ reasonLine ++
    (if diff ≠ "" then "\n```diff\n" ++ diff ++ "```\n\n" else "\n")

/-- The five counters of Go `countActions`. -/
structure ActionCounts where
  adds : Nat
  updates : Nat
  destroys : Nat
  replaces : Nat
  noops : Nat
deriving DecidableEq

/-- Go `countActions`: tally classified actions into the five buckets; a
classification matching no case leaves every bucket untouched. -/
def countActions : List ResourceChange → ActionCounts
  | [] => ActionCounts.mk 0 0 0 0 0
  | rc :: rest =>
    let c := countActions rest
    let s := summarizeActions rc.change.actions
    if s = "create" then ActionCounts.mk (c.adds + 1) c.updates c.destroys c.replaces c.noops
    else if s = "update" then ActionCounts.mk c.adds (c.updates + 1) c.destroys c.replaces c.noops
    else if s = "delete" then ActionCounts.mk c.adds c.updates (c.destroys + 1) c.replaces c.noops
    else if s = "replace (delete, create)" ∨ s = "replace (create, delete)" then
      ActionCounts.mk c.adds c.updates c.destroys (c.replaces + 1) c.noops
    else if s = "no-op" ∨ s = "read" then
      ActionCounts.mk c.adds c.updates c.destroys c.replaces (c.noops + 1)
    else c

/-- Sum of the five buckets. -/
def countsSum (c : ActionCounts) : Nat :=
  c.adds + c.updates + c.destroys + c.replaces + c.noops

mutual

/-- Canonical form of a value: object bindings recursively sorted by key.
Two values are structurally equal (equal mappings regardless of binding
order) exactly when their canonical forms coincide. -/
def canon : JValue → JValue
  | JValue.null => JValue.null
  | JValue.bool b => JValue.bool b
  | JValue.num q => JValue.num q
  | JValue.str s => JValue.str s
  | JValue.arr xs => JValue.arr (canonList xs)
  | JValue.obj kvs => JValue.obj (List.insertionSort keyLE (canonPairs kvs))

def canonList : List JValue → List JValue
  | [] => []
  | x :: xs => canon x :: canonList xs

def canonPairs : List (String × JValue) → List (String × JValue)
  | [] => []
  | p :: rest => (p.1, canon p.2) :: canonPairs rest

end

/-- Whether a value is a mapping (`map[string]interface` in Go). -/
def isObjB : JValue → Bool
  | JValue.obj _ => true
  | _ => false

/-- The top-level keys of a value are unique (automatically true for values
decoded from real Go maps). -/
def topKeysNodup : JValue → Prop
  | JValue.obj kvs => (keys kvs).Nodup
  | _ => True

instance : DecidablePred topKeysNodup := fun v =>
  match v with
  | JValue.null => inferInstanceAs (Decidable True)
  | JValue.bool _ => inferInstanceAs (Decidable True)
  | JValue.num _ => inferInstanceAs (Decidable True)
  | JValue.str _ => inferInstanceAs (Decidable True)
  | JValue.arr _ => inferInstanceAs (Decidable True)
  | JValue.obj kvs => inferInstanceAs (Decidable (keys kvs).Nodup)

/-- Map a function over the values of an association list, keeping keys. -/
def mapSnd {α β : Type} (g : α → β) (l : List (String × α)) : List (String × β) :=
  l.map (fun p => (p.1, g p.2))

/-- A 200-character ASCII string (test fixture). -/
def aas200 : String :=
  ⟨List.replicate 200 'a'⟩

/-- A 201-character ASCII string (test fixture). -/
def sample201 : String :=
  ⟨List.replicate 201 'a'⟩

/-- Twenty bindings of five-character keys to 200-character strings, whose
rendered lines exceed 4000 characters in total (test fixture). -/
def largePairs : List (String × JValue) :=
  (List.range 20).map (fun i => ("key" ++ Nat.repr (10 + i), JValue.str aas200))

/-- An `after` mapping whose rendered body exceeds 4000 characters
(test fixture). -/
def sampleLargeAfter : JValue :=
  JValue.obj largePairs

/-- A create record whose `after` map binds `ami` before `zone`
(test fixture). -/
def rcCreateAB : ResourceChange :=
  ⟨"aws_instance.example",
    ⟨["create"], JValue.null, JValue.obj [("ami", JValue.str "one"), ("zone", JValue.str "two")]⟩,
    ""⟩

/-- The same create record with the two bindings in the opposite iteration
order (test fixture). -/
def rcCreateBA : ResourceChange :=
  ⟨"aws_instance.example",
    ⟨["create"], JValue.null, JValue.obj [("zone", JValue.str "two"), ("ami", JValue.str "one")]⟩,
    ""⟩

/-- An update record (test fixture). -/
def rcUpd1 : ResourceChange :=
  ⟨"res.u",
    ⟨["update"], JValue.obj [("x", JValue.num 1), ("y", JValue.num 2)],
      JValue.obj [("x", JValue.num 5), ("y", JValue.num 2)]⟩,
    ""⟩

/-- The same update record with both maps in the opposite iteration order
(test fixture). -/
def rcUpd2 : ResourceChange :=
  ⟨"res.u",
    ⟨["update"], JValue.obj [("y", JValue.num 2), ("x", JValue.num 1)],
      JValue.obj [("y", JValue.num 2), ("x", JValue.num 5)]⟩,
    ""⟩

/-- A record with an action tag unknown to the classifier (test fixture). -/
def rcUnknown : ResourceChange :=
  ⟨"res.unknown", ⟨["open"], JValue.null, JValue.null⟩, ""⟩

/-- A read record (test fixture). -/
def rcRead : ResourceChange :=
  ⟨"res.read", ⟨["read"], JValue.null, JValue.null⟩, ""⟩

/-- A record whose single action tag is unknown to the classifier's switch
but collides with the replace bucket label: the fallback join returns the
tag itself, which is the string the replace bucket matches (test fixture). -/
def rcCollide : ResourceChange :=
  ⟨"res.collide", ⟨["replace (delete, create)"], JValue.null, JValue.null⟩, ""⟩

/-! ### Supporting lemmas -/

theorem strTake_length (s : String) (n : Nat) : (strTake s n).length = min n s.length :=
  List.length_take n s.data

theorem foldl_append_length (l : List String) (acc : String) :
    (l.foldl (· ++ ·) acc).length = acc.length + (l.map String.length).sum := by
  induction l generalizing acc with
  | nil => simp
  | cons x xs ih => simp [List.foldl, ih, String.length_append]; omega

theorem join_length (l : List String) : (String.join l).length = (l.map String.length).sum := by
  simp [String.join, foldl_append_length]

theorem mapGet_isSome_iff (m : List (String × JValue)) (k : String) :
    (mapGet m k).isSome ↔ k ∈ keys m := by
  induction m with
  | nil => simp [mapGet, keys]
  | cons p rest ih =>
    obtain ⟨a, b⟩ := p
    by_cases h : a = k
    · subst h
      simp [mapGet, keys]
    · rw [keys, List.map_cons, List.mem_cons]
      rw [mapGet, if_neg h, ih]
      constructor
      · exact Or.inr
      · rintro (he | hm)
        · exact absurd he.symm h
        · exact hm

theorem mapGet_eq_none_iff (m : List (String × JValue)) (k : String) :
    mapGet m k = none ↔ k ∉ keys m := by
  rw [← mapGet_isSome_iff, Option.not_isSome_iff_eq_none]

theorem mapGet_mem {m : List (String × JValue)} {k : String} {v : JValue}
    (h : mapGet m k = some v) : (k, v) ∈ m := by
  induction m with
  | nil => simp [mapGet] at h
  | cons p rest ih =>
    obtain ⟨a, b⟩ := p
    by_cases ha : a = k
    · subst ha
      simp [mapGet] at h
      simp [h]
    · simp [mapGet, ha] at h
      exact List.mem_cons_of_mem _ (ih h)

theorem keys_mapSnd (g : JValue → JValue) (m : List (String × JValue)) :
    keys (mapSnd g m) = keys m := by
  simp [keys, mapSnd, List.map_map]

theorem mapGet_mapSnd (g : JValue → JValue) (m : List (String × JValue)) (k : String) :
    mapGet (mapSnd g m) k = Option.map g (mapGet m k) := by
  induction m with
  | nil => rfl
  | cons p rest ih =>
    obtain ⟨a, b⟩ := p
    by_cases h : a = k <;> simp [mapGet, mapSnd, h] at ih ⊢ <;> simpa [mapSnd] using ih

theorem mapGet_perm {l l2 : List (String × JValue)} (h : l.Perm l2)
    (hn : (keys l).Nodup) (k : String) : mapGet l k = mapGet l2 k := by
  induction h with
  | nil => rfl
  | cons p h2 ih =>
    obtain ⟨a, b⟩ := p
    simp only [keys, List.map_cons, List.nodup_cons] at hn
    by_cases ha : a = k <;> simp [mapGet, ha, ih hn.2]
  | swap x y t =>
    obtain ⟨c, d⟩ := x
    obtain ⟨a, b⟩ := y
    have hne : a ≠ c := by
      simp only [keys, List.map_cons, List.nodup_cons, List.mem_cons] at hn
      exact fun he => hn.1 (Or.inl he)
    by_cases ha : a = k
    · subst ha
      simp [mapGet, hne.symm]
    · by_cases hc : c = k <;> simp [mapGet, ha, hc]
  | trans h1 h2 ih1 ih2 =>
    have hn2 := ((h1.map Prod.fst).nodup_iff).mp hn
    exact (ih1 hn).trans (ih2 hn2)

theorem firstDedup_mem (l : List String) (k : String) : k ∈ firstDedup l ↔ k ∈ l := by
  induction l using firstDedup.induct with
  | case1 => simp [firstDedup]
  | case2 a rest ih =>
    rw [firstDedup]
    by_cases h : k = a
    · subst h
      simp
    · simp only [List.mem_cons, ih, List.mem_filter, h, false_or]
      constructor
      · rintro ⟨hk, _⟩
        exact hk
      · intro hk
        exact ⟨hk, by simp [bne_iff_ne, h]⟩

theorem firstDedup_nodup (l : List String) : (firstDedup l).Nodup := by
  induction l using firstDedup.induct with
  | case1 => simp [firstDedup]
  | case2 a rest ih =>
    simp only [firstDedup, List.nodup_cons]
    refine ⟨fun hmem => ?_, ih⟩
    rw [firstDedup_mem] at hmem
    simp [List.mem_filter] at hmem

theorem sorted_lt_of_sorted_le_nodup {l : List String}
    (hs : List.Sorted (· ≤ ·) l) (hn : l.Nodup) : List.Sorted (· < ·) l := by
  induction l with
  | nil => simp
  | cons x xs ih =>
    rw [List.sorted_cons] at hs ⊢
    rw [List.nodup_cons] at hn
    refine ⟨fun b hb => lt_of_le_of_ne (hs.1 b hb) fun he => hn.1 (he ▸ hb), ih hs.2 hn.2⟩

theorem sortStrings_sorted (l : List String) : List.Sorted (· ≤ ·) (sortStrings l) :=
  List.sorted_insertionSort _ l

theorem sortStrings_perm (l : List String) : (sortStrings l).Perm l :=
  List.perm_insertionSort _ l

theorem mergeKeys_nodup (a b : List (String × JValue)) : (mergeKeys a b).Nodup :=
  ((sortStrings_perm _).nodup_iff).mpr (firstDedup_nodup _)

theorem mergeKeys_sorted (a b : List (String × JValue)) :
    List.Sorted (· < ·) (mergeKeys a b) :=
  sorted_lt_of_sorted_le_nodup (sortStrings_sorted _) (mergeKeys_nodup a b)

theorem mergeKeys_mem (a b : List (String × JValue)) (k : String) :
    k ∈ mergeKeys a b ↔ k ∈ keys a ∨ k ∈ keys b := by
  unfold mergeKeys sortStrings
  rw [List.mem_insertionSort, firstDedup_mem, List.mem_append]

theorem mergeKeys_mem_isSome (a b : List (String × JValue)) (k : String) :
    k ∈ mergeKeys a b ↔ (mapGet a k).isSome ∨ (mapGet b k).isSome := by
  rw [mergeKeys_mem, mapGet_isSome_iff, mapGet_isSome_iff]

theorem jvalueInduction {P : JValue → Prop} (hnull : P JValue.null)
    (hbool : ∀ b, P (JValue.bool b)) (hnum : ∀ q, P (JValue.num q))
    (hstr : ∀ s, P (JValue.str s))
    (harr : ∀ xs, (∀ x ∈ xs, P x) → P (JValue.arr xs))
    (hobj : ∀ kvs, (∀ k v, (k, v) ∈ kvs → P v) → P (JValue.obj kvs)) :
    ∀ v, P v
  | JValue.null => hnull
  | JValue.bool b => hbool b
  | JValue.num q => hnum q
  | JValue.str s => hstr s
  | JValue.arr xs =>
    harr xs (fun x hx => jvalueInduction hnull hbool hnum hstr harr hobj x)
  | JValue.obj kvs =>
    hobj kvs (fun k v hkv => jvalueInduction hnull hbool hnum hstr harr hobj v)
termination_by v => sizeOf v
decreasing_by
  · have h1 := List.sizeOf_lt_of_mem hx
    simp only [JValue.arr.sizeOf_spec]
    omega
  · have h1 := List.sizeOf_lt_of_mem hkv
    simp only [Prod.mk.sizeOf_spec] at h1
    simp only [JValue.obj.sizeOf_spec]
    omega

theorem canonList_eq (l : List JValue) : canonList l = l.map canon := by
  induction l with
  | nil => rfl
  | cons x xs ih => simp [canonList, ih]

theorem canonPairs_eq (l : List (String × JValue)) : canonPairs l = mapSnd canon l := by
  induction l with
  | nil => rfl
  | cons p rest ih => simp [canonPairs, mapSnd, ih]

theorem jsonMarshalList_eq (l : List JValue) : jsonMarshalList l = l.map jsonMarshal := by
  induction l with
  | nil => rfl
  | cons x xs ih => simp [jsonMarshalList, ih]

theorem jsonMarshalPairs_eq (l : List (String × JValue)) :
    jsonMarshalPairs l = l.map (fun p => (p.1, jsonMarshal p.2)) := by
  induction l with
  | nil => rfl
  | cons p rest ih => simp [jsonMarshalPairs, ih]

theorem formatList_eq (l : List JValue) (d : Nat) :
    formatList l d = l.map (fun x => formatValue x d) := by
  induction l with
  | nil => rfl
  | cons x xs ih => simp [formatList, ih]

theorem insertionSort_mapSndStr (g : JValue → String) (l : List (String × JValue)) :
    (List.insertionSort keyLE l).map (fun p => (p.1, g p.2)) =
      List.insertionSort keyLE (l.map (fun p => (p.1, g p.2))) :=
  List.map_insertionSort keyLE keyLE (fun p => (p.1, g p.2)) l
    (fun _ _ _ _ => Iff.rfl)

theorem insertionSort_keyLE_idem (l : List (String × String)) :
    List.insertionSort keyLE (List.insertionSort keyLE l) = List.insertionSort keyLE l :=
  (List.sorted_insertionSort keyLE l).insertionSort_eq

theorem jsonMarshal_canon : ∀ v, jsonMarshal (canon v) = jsonMarshal v := by
  apply jvalueInduction
  · rfl
  · intro b
    rfl
  · intro q
    rfl
  · intro s
    rfl
  · intro xs ih
    simp only [canon, jsonMarshal, canonList_eq, jsonMarshalList_eq, List.map_map]
    rw [show List.map (jsonMarshal ∘ canon) xs = List.map jsonMarshal xs from
      List.map_congr_left (fun x hx => ih x hx)]
  · intro kvs ih
    simp only [canon, jsonMarshal, jsonMarshalPairs_eq, canonPairs_eq]
    rw [insertionSort_mapSndStr jsonMarshal (mapSnd canon kvs)]
    rw [show (mapSnd canon kvs).map (fun p => (p.1, jsonMarshal p.2)) =
          kvs.map (fun p => (p.1, jsonMarshal p.2)) from by
        rw [mapSnd, List.map_map]
        exact List.map_congr_left (fun p hp => by
          show (p.1, jsonMarshal (canon p.2)) = (p.1, jsonMarshal p.2)
          rw [ih p.1 p.2 hp])]
    rw [insertionSort_keyLE_idem]

theorem formatValue_canon : ∀ v, ∀ d, formatValue (canon v) d = formatValue v d := by
  apply jvalueInduction
  · intro d
    rfl
  · intro b d
    rfl
  · intro q d
    rfl
  · intro s d
    rfl
  · intro xs ih d
    simp only [canon, formatValue, canonList_eq, List.length_map, formatList_eq,
      List.map_map]
    rw [show List.map ((fun x => formatValue x (d + 1)) ∘ canon) xs =
          List.map (fun x => formatValue x (d + 1)) xs from
      List.map_congr_left (fun x hx => ih x hx (d + 1))]
  · intro kvs ih d
    have hm := jsonMarshal_canon (JValue.obj kvs)
    simp only [canon] at hm
    have hl : (List.insertionSort keyLE (canonPairs kvs)).length = kvs.length := by
      rw [List.length_insertionSort, canonPairs_eq, mapSnd, List.length_map]
    simp only [canon, formatValue]
    rw [hl, hm]

theorem formatValue_canon_eq {x y : JValue} (h : canon x = canon y) (d : Nat) :
    formatValue x d = formatValue y d := by
  rw [← formatValue_canon x d, h, formatValue_canon y d]

theorem jsonMarshal_canon_eq {x y : JValue} (h : canon x = canon y) :
    jsonMarshal x = jsonMarshal y := by
  rw [← jsonMarshal_canon x, h, jsonMarshal_canon y]

theorem canon_obj_perm {l l2 : List (String × JValue)}
    (h : canon (JValue.obj l) = canon (JValue.obj l2)) :
    (mapSnd canon l).Perm (mapSnd canon l2) := by
  simp only [canon, canonPairs_eq, JValue.obj.injEq] at h
  exact (List.perm_insertionSort keyLE (mapSnd canon l)).symm.trans
    (by rw [h]; exact List.perm_insertionSort keyLE (mapSnd canon l2))

theorem canon_obj_keys_perm {l l2 : List (String × JValue)}
    (h : canon (JValue.obj l) = canon (JValue.obj l2)) :
    (keys l).Perm (keys l2) := by
  have h2 := (canon_obj_perm h).map Prod.fst
  rwa [show (mapSnd canon l).map Prod.fst = keys l from keys_mapSnd canon l,
    show (mapSnd canon l2).map Prod.fst = keys l2 from keys_mapSnd canon l2] at h2

theorem mapGet_canon_eq {l l2 : List (String × JValue)}
    (h : canon (JValue.obj l) = canon (JValue.obj l2))
    (hn : (keys l).Nodup) (k : String) :
    Option.map canon (mapGet l k) = Option.map canon (mapGet l2 k) := by
  rw [← mapGet_mapSnd, ← mapGet_mapSnd]
  exact mapGet_perm (canon_obj_perm h) (by rw [keys_mapSnd]; exact hn) k

theorem mergeKeys_congr {b b2 a a2 : List (String × JValue)}
    (hb : (keys b).Perm (keys b2)) (ha : (keys a).Perm (keys a2)) :
    mergeKeys b a = mergeKeys b2 a2 := by
  have h1 : (mergeKeys b a).Perm (mergeKeys b2 a2) :=
    (List.perm_ext_iff_of_nodup (mergeKeys_nodup _ _) (mergeKeys_nodup _ _)).mpr fun k => by
      rw [mergeKeys_mem, mergeKeys_mem, hb.mem_iff, ha.mem_iff]
  exact List.eq_of_perm_of_sorted h1 (sortStrings_sorted _) (sortStrings_sorted _)

theorem optCanonShape {o1 o2 : Option JValue} (h : Option.map canon o1 = Option.map canon o2) :
    (o1 = none ∧ o2 = none) ∨
      ∃ v1 v2, o1 = some v1 ∧ o2 = some v2 ∧ canon v1 = canon v2 := by
  cases o1 <;> cases o2 <;> simp_all

theorem diffLine_congr {b b2 a a2 : List (String × JValue)}
    (hnb : (keys b).Nodup) (hna : (keys a).Nodup)
    (hb : canon (JValue.obj b) = canon (JValue.obj b2))
    (ha : canon (JValue.obj a) = canon (JValue.obj a2))
    (d : Nat) (k : String) : diffLine b a d k = diffLine b2 a2 d k := by
  rcases optCanonShape (mapGet_canon_eq hb hnb k) with ⟨e1, e2⟩ | ⟨v1, v2, e1, e2, hv⟩ <;>
    rcases optCanonShape (mapGet_canon_eq ha hna k) with ⟨e3, e4⟩ | ⟨w1, w2, e3, e4, hw⟩
  · simp [diffLine, e1, e2, e3, e4]
  · simp only [diffLine, e1, e2, e3, e4]
    rw [formatValue_canon_eq hw]
  · simp only [diffLine, e1, e2, e3, e4]
    rw [formatValue_canon_eq hv]
  · have hval : valuesEqual v1 w1 = valuesEqual v2 w2 := by
      unfold valuesEqual
      rw [jsonMarshal_canon_eq hv, jsonMarshal_canon_eq hw]
    simp only [diffLine, e1, e2, e3, e4]
    rw [hval, formatValue_canon_eq hv, formatValue_canon_eq hw]

theorem writeDiff_congr {b b2 a a2 : List (String × JValue)}
    (hnb : (keys b).Nodup) (hna : (keys a).Nodup)
    (hb : canon (JValue.obj b) = canon (JValue.obj b2))
    (ha : canon (JValue.obj a) = canon (JValue.obj a2))
    (d : Nat) : writeDiff b a d = writeDiff b2 a2 d := by
  unfold writeDiff
  rw [mergeKeys_congr (canon_obj_keys_perm hb) (canon_obj_keys_perm ha)]
  exact congrArg String.join
    (List.map_congr_left fun k _ => diffLine_congr hnb hna hb ha d k)

theorem canon_isObj {x y : JValue} (h : canon x = canon y) : isObjB x = isObjB y := by
  cases x <;> cases y <;> simp [canon, isObjB] at h ⊢

theorem isObjB_true {x : JValue} (h : isObjB x = true) : ∃ m, x = JValue.obj m := by
  cases x <;> simp_all [isObjB]

theorem attrBody_create (before after : JValue) :
    attrBody before after "create" =
      (match after with
       | JValue.obj m => writeMapValues m "+ " 0
       | _ => "") := by
  simp [attrBody]

theorem attrBody_delete (before after : JValue) :
    attrBody before after "delete" =
      (match before with
       | JValue.obj m => writeMapValues m "- " 0
       | _ => "") := by
  simp [attrBody]

theorem attrBody_update (before after : JValue) (act : String)
    (h : act = "update" ∨ act = "replace (delete, create)" ∨
      act = "replace (create, delete)") :
    attrBody before after act =
      (match before, after with
       | JValue.obj bm, JValue.obj am => writeDiff bm am 0
       | _, _ => "") := by
  rcases h with h | h | h <;> subst h <;> simp [attrBody]

theorem attrBody_other (before after : JValue) (act : String)
    (h : act ∉ (["create", "delete", "update", "replace (delete, create)",
      "replace (create, delete)"] : List String)) :
    attrBody before after act = "" := by
  have h1 : ¬ act = "create" := fun he => h (by simp [he])
  have h2 : ¬ act = "delete" := fun he => h (by simp [he])
  have h3 : ¬ act = "update" := fun he => h (by simp [he])
  have h4 : ¬ act = "replace (delete, create)" := fun he => h (by simp [he])
  have h5 : ¬ act = "replace (create, delete)" := fun he => h (by simp [he])
  unfold attrBody
  rw [if_neg h1, if_neg h2, if_neg (by rintro (e | e | e); exacts [h3 e, h4 e, h5 e])]

theorem attrBody_update_not_obj {before after : JValue} (act : String)
    (hact : act = "update" ∨ act = "replace (delete, create)" ∨
      act = "replace (create, delete)")
    (h : isObjB before = false ∨ isObjB after = false) :
    attrBody before after act = "" := by
  rw [attrBody_update before after act hact]
  cases before <;> cases after <;> simp_all [isObjB]

theorem sum_map_one (l : List Char) : (l.map (fun _ => (1 : Nat))).sum = l.length := by
  induction l <;> simp_all [Nat.add_comm]

theorem goQuote_length_plain {s : String}
    (h : ∀ c ∈ s.data, quoteChar c = String.singleton c) :
    (goQuote s).length = s.length + 2 := by
  unfold goQuote
  rw [String.length_append, String.length_append, join_length, List.map_congr_left h,
    List.map_map]
  rw [show s.data.map (String.length ∘ String.singleton) = s.data.map (fun _ => (1 : Nat))
    from rfl]
  rw [sum_map_one]
  show 1 + s.data.length + 1 = s.length + 2
  have : s.length = s.data.length := rfl
  omega

/-! ### Claims -/

/-- Claim C3: a single-element action list classifies to its tag name; the
two-element lists `[delete, create]` and `[create, delete]` classify to the
two distinct replace forms; any other multi-element list classifies to the
comma-joined literal list of its raw tags. -/
theorem claim_C3 :
    (∀ a : String, summarizeActions [a] = a) ∧
    summarizeActions ["delete", "create"] = "replace (delete, create)" ∧
    summarizeActions ["create", "delete"] = "replace (create, delete)" ∧
    summarizeActions ["delete", "create"] ≠ summarizeActions ["create", "delete"] ∧
    (∀ l : List String, 2 ≤ l.length → l ≠ ["delete", "create"] →
      l ≠ ["create", "delete"] → summarizeActions l = String.intercalate ", " l) := by
  refine ⟨?_, by decide, by decide, by decide, ?_⟩
  · intro a
    simp only [summarizeActions]
    split_ifs with h1 h2 h3 h4 h5
    · exact h1.symm
    · exact h2.symm
    · exact h3.symm
    · exact h4.symm
    · exact h5.symm
    · rfl
  · intro l hlen hne1 hne2
    rcases l with _ | ⟨a, _ | ⟨b, _ | ⟨c, rest⟩⟩⟩
    · exact absurd hlen (by simp)
    · exact absurd hlen (by simp)
    · have hab : ¬(a = "delete" ∧ b = "create") := fun he => hne1 (by rw [he.1, he.2])
      have hba : ¬(a = "create" ∧ b = "delete") := fun he => hne2 (by rw [he.1, he.2])
      simp only [summarizeActions]
      rw [if_neg hab, if_neg hba]
    · rfl

/-- Witness for C3 at concrete inputs. -/
theorem claim_C3_witness :
    summarizeActions ["frobnicate"] = "frobnicate" ∧
    summarizeActions ["create", "update", "delete"] = "create, update, delete" := by
  refine ⟨claim_C3.1 "frobnicate", ?_⟩
  have h := claim_C3.2.2.2.2 ["create", "update", "delete"] (by decide) (by decide) (by decide)
  exact h

/-- Claim C9: every reason code in the closed known set maps to its fixed
human-readable sentence, and every string outside that set passes through
verbatim. -/
theorem claim_C9 :
    formatActionReason "replace_because_tainted" = "resource is tainted, so must be replaced" ∧
    formatActionReason "replace_because_cannot_update" =
      "provider requires replacement to apply changes" ∧
    formatActionReason "replace_by_request" = "replacement was requested" ∧
    formatActionReason "delete_because_no_resource_config" = "no resource configuration found" ∧
    formatActionReason "delete_because_no_module" = "module instance no longer declared" ∧
    formatActionReason "delete_because_wrong_repetition" =
      "instance key not compatible with repetition mode" ∧
    formatActionReason "delete_because_count_index" = "count index out of range" ∧
    formatActionReason "delete_because_each_key" = "for_each key not in current configuration" ∧
    formatActionReason "read_because_config_unknown" =
      "configuration values unknown until apply" ∧
    formatActionReason "read_because_dependency_pending" =
      "depends on resource with pending changes" ∧
    (∀ r, r ∉ knownReasons → formatActionReason r = r) := by
  refine ⟨by decide, by decide, by decide, by decide, by decide, by decide, by decide,
    by decide, by decide, by decide, ?_⟩
  intro r hr
  unfold formatActionReason
  split_ifs with h1 h2 h3 h4 h5 h6 h7 h8 h9 h10
  · exact absurd (by rw [h1]; decide) hr
  · exact absurd (by rw [h2]; decide) hr
  · exact absurd (by rw [h3]; decide) hr
  · exact absurd (by rw [h4]; decide) hr
  · exact absurd (by rw [h5]; decide) hr
  · exact absurd (by rw [h6]; decide) hr
  · exact absurd (by rw [h7]; decide) hr
  · exact absurd (by rw [h8]; decide) hr
  · exact absurd (by rw [h9]; decide) hr
  · exact absurd (by rw [h10]; decide) hr
  · rfl

/-- Witness for C9 at a code outside the known set. -/
theorem claim_C9_witness :
    "mystery_reason" ∉ knownReasons ∧ formatActionReason "mystery_reason" = "mystery_reason" :=
  ⟨by decide, claim_C9.2.2.2.2.2.2.2.2.2.2 "mystery_reason" (by decide)⟩

/-- Claim C10 (amended): records classified `read` or `no-op` land in the
noops bucket, and records whose classification string matches none of the
seven bucket labels are not counted at all, so the five counts can sum to
strictly less than the number of records.  The tally dispatches purely on the
classification string, however, so a fallback comma-join that collides with a
bucket label - such as the single unknown tag `replace (delete, create)`,
whose one-element join is the tag itself - is counted in that bucket, contrary
to the frozen claim that every fallback-classified record is counted in no
bucket. -/
theorem claim_C10 :
    (∀ rest rc, (summarizeActions rc.change.actions = "read" ∨
        summarizeActions rc.change.actions = "no-op") →
      countActions (rc :: rest) =
        ActionCounts.mk (countActions rest).adds (countActions rest).updates
          (countActions rest).destroys (countActions rest).replaces
          ((countActions rest).noops + 1)) ∧
    (∀ rest rc, summarizeActions rc.change.actions ∉
        (["create", "update", "delete", "replace (delete, create)",
          "replace (create, delete)", "no-op", "read"] : List String) →
      countActions (rc :: rest) = countActions rest) ∧
    (∀ rest rc, (summarizeActions rc.change.actions = "replace (delete, create)" ∨
        summarizeActions rc.change.actions = "replace (create, delete)") →
      countActions (rc :: rest) =
        ActionCounts.mk (countActions rest).adds (countActions rest).updates
          (countActions rest).destroys ((countActions rest).replaces + 1)
          (countActions rest).noops) ∧
    (∃ l : List ResourceChange, countsSum (countActions l) < l.length) := by
  refine ⟨?_, ?_, ?_, ⟨[rcUnknown], by decide⟩⟩
  · intro rest rc h
    rcases h with h | h <;> simp [countActions, h]
  · intro rest rc h
    have h1 : ¬ summarizeActions rc.change.actions = "create" := fun he => h (by simp [he])
    have h2 : ¬ summarizeActions rc.change.actions = "update" := fun he => h (by simp [he])
    have h3 : ¬ summarizeActions rc.change.actions = "delete" := fun he => h (by simp [he])
    have h4 : ¬ summarizeActions rc.change.actions = "replace (delete, create)" :=
      fun he => h (by simp [he])
    have h5 : ¬ summarizeActions rc.change.actions = "replace (create, delete)" :=
      fun he => h (by simp [he])
    have h6 : ¬ summarizeActions rc.change.actions = "no-op" := fun he => h (by simp [he])
    have h7 : ¬ summarizeActions rc.change.actions = "read" := fun he => h (by simp [he])
    simp [countActions, h1, h2, h3, h4, h5, h6, h7]
  · intro rest rc h
    have h1 : ¬ summarizeActions rc.change.actions = "create" := by
      rcases h with h | h <;> rw [h] <;> decide
    have h2 : ¬ summarizeActions rc.change.actions = "update" := by
      rcases h with h | h <;> rw [h] <;> decide
    have h3 : ¬ summarizeActions rc.change.actions = "delete" := by
      rcases h with h | h <;> rw [h] <;> decide
    simp [countActions, h1, h2, h3, h]

/-- Counterexample to C10 as frozen: the single unknown tag
`replace (delete, create)` classifies through the fallback join (to itself),
yet the record is tallied in the replaces bucket rather than in no bucket. -/
theorem claim_C10_counterexample :
    ("replace (delete, create)" : String) ∉
      (["create", "delete", "update", "read", "no-op"] : List String) ∧
    summarizeActions rcCollide.change.actions =
      String.intercalate ", " rcCollide.change.actions ∧
    (countActions [rcCollide]).replaces = 1 ∧
    countActions [rcCollide] ≠ countActions [] :=
  ⟨by decide, by decide, by decide, by decide⟩

/-- Witness for C10 at a concrete read record and at the colliding record. -/
theorem claim_C10_witness :
    countActions [rcRead] = ActionCounts.mk 0 0 0 0 1 ∧
    countActions [rcCollide] = ActionCounts.mk 0 0 0 1 0 :=
  ⟨claim_C10.1 [] rcRead (Or.inl (by decide)),
    claim_C10.2.2.1 [] rcCollide (Or.inl (by decide))⟩

/-- Claim C8: `buildAttributeDiff` is total and dispatches by action: create
renders only the after map with `+`, delete only the before map with `-`,
update and both replace forms diff only when both sides are mappings and
produce an empty body otherwise, and any other action produces an empty
body. -/
theorem claim_C8 (before after : JValue) (m m2 : List (String × JValue)) (act : String) :
    attrBody before (JValue.obj m) "create" = writeMapValues m "+ " 0 ∧
    (isObjB after = false → attrBody before after "create" = "") ∧
    attrBody (JValue.obj m) after "delete" = writeMapValues m "- " 0 ∧
    (isObjB before = false → attrBody before after "delete" = "") ∧
    ((act = "update" ∨ act = "replace (delete, create)" ∨
        act = "replace (create, delete)") →
      attrBody (JValue.obj m) (JValue.obj m2) act = writeDiff m m2 0 ∧
      ((isObjB before = false ∨ isObjB after = false) →
        buildAttributeDiff before after act = "")) ∧
    (act ∉ (["create", "delete", "update", "replace (delete, create)",
        "replace (create, delete)"] : List String) →
      buildAttributeDiff before after act = "") := by
  refine ⟨attrBody_create before (JValue.obj m), ?_, attrBody_delete (JValue.obj m) after, ?_,
    ?_, ?_⟩
  · intro h
    rw [attrBody_create]
    cases after <;> simp_all [isObjB]
  · intro h
    rw [attrBody_delete]
    cases before <;> simp_all [isObjB]
  · intro hact
    refine ⟨attrBody_update (JValue.obj m) (JValue.obj m2) act hact, ?_⟩
    intro h
    have hb := attrBody_update_not_obj act hact h
    simp [buildAttributeDiff, hb]
  · intro h
    have hb := attrBody_other before after act h
    simp [buildAttributeDiff, hb]

/-- Witness for C8 at concrete inputs. -/
theorem claim_C8_witness :
    attrBody (JValue.str "p") (JValue.obj [("k", JValue.null)]) "create" =
      writeMapValues [("k", JValue.null)] "+ " 0 ∧
    attrBody (JValue.str "p") (JValue.num 3) "create" = "" ∧
    buildAttributeDiff (JValue.str "p") (JValue.num 3) "update" = "" ∧
    buildAttributeDiff (JValue.str "p") (JValue.num 3) "open" = "" := by
  have h := claim_C8 (JValue.str "p") (JValue.num 3) [("k", JValue.null)] [] "update"
  have h2 := claim_C8 (JValue.str "p") (JValue.num 3) [("k", JValue.null)] [] "open"
  exact ⟨h.1, h.2.1 rfl, (h.2.2.2.2.1 (Or.inl rfl)).2 (Or.inl rfl),
    h2.2.2.2.2.2 (by decide)⟩

theorem aas200_length : aas200.length = 200 := by
  show (List.replicate 200 'a').length = 200
  simp

theorem aas200_plain : ∀ c ∈ aas200.data, quoteChar c = String.singleton c := by
  intro c hc
  have hca : c = 'a' := List.eq_of_mem_replicate hc
  subst hca
  decide

theorem formatValue_aas200_length : (formatValue (JValue.str aas200) 1).length = 202 := by
  simp only [formatValue]
  rw [if_neg (by rw [aas200_length]; omega), goQuote_length_plain aas200_plain, aas200_length]

theorem sum_map_const {α : Type} (l : List α) (c : Nat) :
    (l.map (fun _ => c)).sum = l.length * c := by
  induction l with
  | nil => simp
  | cons x xs ih => simp [ih, Nat.succ_mul, Nat.add_comm]

theorem largeBody_length : (attrBody JValue.null sampleLargeAfter "create").length = 4260 := by
  rw [show attrBody JValue.null sampleLargeAfter "create" =
    writeMapValues largePairs "+ " 0 from attrBody_create JValue.null sampleLargeAfter]
  unfold writeMapValues
  rw [join_length, List.map_map]
  have hline : ∀ p ∈ largePairs,
      (String.length ∘ (fun p : String × JValue =>
        "+ " ++ strRepeat "  " 0 ++ p.1 ++ " = " ++ formatValue p.2 (0 + 1) ++ "\n")) p = 213 := by
    intro p hp
    rcases List.mem_map.mp hp with ⟨i, hi, rfl⟩
    have hrepr : (Nat.repr (10 + i)).length = 2 := by
      have hi2 : i < 20 := List.mem_range.mp hi
      interval_cases i <;> decide
    show ("+ " ++ strRepeat "  " 0 ++ ("key" ++ Nat.repr (10 + i)) ++ " = " ++
      formatValue (JValue.str aas200) (0 + 1) ++ "\n").length = 213
    simp only [String.length_append]
    rw [hrepr, formatValue_aas200_length]
    decide
  rw [List.map_congr_left hline, sum_map_const,
    show largePairs.length = 20 from by simp [largePairs]]

/-- Claim C4: the composed diff body is returned unchanged when it is at most
4000 characters long; when it exceeds 4000 characters it is truncated to its
first 4000 characters followed by the fixed newline-delimited marker, for a
total length of 4051 characters; the cap is applied once, after the full
body `attrBody` is built. -/
theorem claim_C4 (before after : JValue) (action : String) :
    ((attrBody before after action).length ≤ 4000 →
      buildAttributeDiff before after action = attrBody before after action) ∧
    (4000 < (attrBody before after action).length →
      buildAttributeDiff before after action =
        strTake (attrBody before after action) 4000 ++
          "\n... (diff truncated, too many changes to display)\n" ∧
      (buildAttributeDiff before after action).length = 4051) := by
  constructor
  · intro h
    simp only [buildAttributeDiff]
    rw [if_neg (not_lt.mpr h)]
  · intro h
    have he : buildAttributeDiff before after action =
        strTake (attrBody before after action) 4000 ++
          "\n... (diff truncated, too many changes to display)\n" := by
      simp only [buildAttributeDiff]
      rw [if_pos h]
    refine ⟨he, ?_⟩
    rw [he, String.length_append, strTake_length]
    have hm : min 4000 (attrBody before after action).length = 4000 := by omega
    rw [hm]
    decide

/-- Witness for C4 at a record whose body exceeds 4000 characters. -/
theorem claim_C4_witness :
    4000 < (attrBody JValue.null sampleLargeAfter "create").length ∧
    buildAttributeDiff JValue.null sampleLargeAfter "create" =
      strTake (attrBody JValue.null sampleLargeAfter "create") 4000 ++
        "\n... (diff truncated, too many changes to display)\n" ∧
    (buildAttributeDiff JValue.null sampleLargeAfter "create").length = 4051 :=
  ⟨by rw [largeBody_length]; omega,
    (claim_C4 JValue.null sampleLargeAfter "create").2 (by rw [largeBody_length]; omega)⟩

/-- Claim C5 (amended): strings of at most 200 characters render whole and
quoted; longer strings are truncated to their first 200 characters with the
15-character marker appended, still quoted, so the truncated rendered form is
the quoted prefix plus 15 characters - exactly 217 characters when no
retained character needs escape expansion (not 204 as originally claimed). -/
theorem claim_C5 (s : String) (d : Nat) :
    (s.length ≤ 200 → formatValue (JValue.str s) d = goQuote s) ∧
    (200 < s.length →
      formatValue (JValue.str s) d = goQuote (strTake s 200) ++ "... (truncated)" ∧
      (formatValue (JValue.str s) d).length = (goQuote (strTake s 200)).length + 15 ∧
      ((∀ c ∈ (strTake s 200).data, quoteChar c = String.singleton c) →
        (formatValue (JValue.str s) d).length = 217)) := by
  constructor
  · intro h
    simp only [formatValue]
    rw [if_neg (not_lt.mpr h)]
  · intro h
    have he : formatValue (JValue.str s) d = goQuote (strTake s 200) ++ "... (truncated)" := by
      simp only [formatValue]
      rw [if_pos h]
    refine ⟨he, ?_, ?_⟩
    · rw [he, String.length_append, show ("... (truncated)").length = 15 from by decide]
    · intro hplain
      rw [he, String.length_append, goQuote_length_plain hplain, strTake_length]
      have hm : min 200 s.length = 200 := by omega
      rw [hm]
      decide

/-- Counterexample for C5 as frozen: a 201-character plain string renders to
217 characters, which exceeds the claimed 204-character bound. -/
theorem claim_C5_counterexample :
    sample201.length = 201 ∧ 204 < (formatValue (JValue.str sample201) 1).length := by
  exact ⟨by decide, by decide⟩

/-- Witness for C5 at a concrete 201-character string. -/
theorem claim_C5_witness :
    200 < sample201.length ∧
    formatValue (JValue.str sample201) 1 = goQuote (strTake sample201 200) ++ "... (truncated)" ∧
    (formatValue (JValue.str sample201) 1).length = 217 := by
  have h := (claim_C5 sample201 1).2 (by decide)
  exact ⟨by decide, h.1, h.2.2 (by decide)⟩

/-- Claim C6: an empty array renders as the empty bracket pair; a non-empty
array at depth greater than 2 collapses to a count; otherwise the elements
are rendered recursively at depth+1 and joined, and the 200-character check
is made on the joined string after it is fully built. -/
theorem claim_C6 (xs : List JValue) (d : Nat) :
    formatValue (JValue.arr []) d = "[]" ∧
    (xs ≠ [] → 2 < d →
      formatValue (JValue.arr xs) d = "[..." ++ toString xs.length ++ " items]") ∧
    (xs ≠ [] → d ≤ 2 →
      formatValue (JValue.arr xs) d =
        (if (String.intercalate ", " (xs.map (fun x => formatValue x (d + 1)))).length > 200
         then "[..." ++ toString xs.length ++ " items]"
         else "[" ++ String.intercalate ", " (xs.map (fun x => formatValue x (d + 1))) ++ "]")) := by
  refine ⟨by simp [formatValue], ?_, ?_⟩
  · intro hne hd
    simp only [formatValue]
    rw [if_neg (by simpa [List.length_eq_zero] using hne), if_pos hd]
  · intro hne hd
    simp only [formatValue, formatList_eq]
    rw [if_neg (by simpa [List.length_eq_zero] using hne), if_neg (not_lt.mpr hd)]

/-- Witness for C6 at concrete inputs. -/
theorem claim_C6_witness :
    formatValue (JValue.arr [JValue.num 1]) 3 = "[...1 items]" ∧
    formatValue (JValue.arr [JValue.num 1]) 0 =
      (if (String.intercalate ", "
            ([JValue.num 1].map (fun x => formatValue x 1))).length > 200
       then "[...1 items]"
       else "[" ++ String.intercalate ", " ([JValue.num 1].map (fun x => formatValue x 1)) ++ "]") := by
  have h3 := (claim_C6 [JValue.num 1] 3).2.1 (by simp) (by omega)
  have h0 := (claim_C6 [JValue.num 1] 0).2.2 (by simp) (by omega)
  exact ⟨h3, h0⟩

/-- Claim C1: for mapping-typed before/after values, the diff emits one line
per key of the deduplicated union of both key sets, visited in strictly
increasing lexicographic order: a key only in `after` yields a `+` line, a
key only in `before` yields a `-` line, and a key in both yields a `~` line
exactly when the two values' canonical JSON serializations differ. -/
theorem claim_C1 (before after : List (String × JValue)) (depth : Nat) :
    List.Sorted (· < ·) (mergeKeys before after) ∧
    (∀ k, k ∈ mergeKeys before after ↔
      (mapGet before k).isSome ∨ (mapGet after k).isSome) ∧
    writeDiff before after depth =
      String.join ((mergeKeys before after).map (diffLine before after depth)) ∧
    (∀ k aVal, mapGet before k = none → mapGet after k = some aVal →
      diffLine before after depth k =
        "+ " ++ strRepeat "  " depth ++ k ++ " = " ++ formatValue aVal (depth + 1) ++ "\n") ∧
    (∀ k bVal, mapGet before k = some bVal → mapGet after k = none →
      diffLine before after depth k =
        "- " ++ strRepeat "  " depth ++ k ++ " = " ++ formatValue bVal (depth + 1) ++ "\n") ∧
    (∀ k bVal aVal, mapGet before k = some bVal → mapGet after k = some aVal →
      (jsonMarshal bVal = jsonMarshal aVal → diffLine before after depth k = "") ∧
      (jsonMarshal bVal ≠ jsonMarshal aVal →
        diffLine before after depth k =
          "~ " ++ strRepeat "  " depth ++ k ++ " = " ++ formatValue bVal (depth + 1) ++
            " -> " ++ formatValue aVal (depth + 1) ++ "\n")) := by
  refine ⟨mergeKeys_sorted before after, mergeKeys_mem_isSome before after, rfl, ?_, ?_, ?_⟩
  · intro k aVal h1 h2
    simp [diffLine, h1, h2]
  · intro k bVal h1 h2
    simp [diffLine, h1, h2]
  · intro k bVal aVal h1 h2
    constructor
    · intro he
      simp [diffLine, h1, h2, valuesEqual, he]
    · intro hne
      simp [diffLine, h1, h2, valuesEqual, hne]

/-- Witness for C1 on the spec's key-ordering example. -/
theorem claim_C1_witness :
    diffLine [("b", JValue.num 1), ("a", JValue.num 2)]
      [("a", JValue.num 2), ("c", JValue.num 3)] 0 "c" = "+ c = 3\n" ∧
    diffLine [("b", JValue.num 1), ("a", JValue.num 2)]
      [("a", JValue.num 2), ("c", JValue.num 3)] 0 "b" = "- b = 1\n" ∧
    diffLine [("b", JValue.num 1), ("a", JValue.num 2)]
      [("a", JValue.num 2), ("c", JValue.num 3)] 0 "a" = "" := by
  have h := claim_C1 [("b", JValue.num 1), ("a", JValue.num 2)]
    [("a", JValue.num 2), ("c", JValue.num 3)] 0
  exact ⟨h.2.2.2.1 "c" (JValue.num 3) rfl rfl,
    h.2.2.2.2.1 "b" (JValue.num 1) rfl rfl,
    (h.2.2.2.2.2 "a" (JValue.num 2) (JValue.num 2) rfl rfl).1 rfl⟩

/-- Claim C2 (amended): rendering is a pure function of the record, and for
records classified `update` or either `replace` form the output is invariant
under re-ordering of mapping bindings (structural equality via `canon`, with
unique top-level keys); for `create` and `delete`, `writeMapValues` iterates
the mapping in its native order, so the output is not invariant under binding
re-ordering. -/
theorem claim_C2_amended (rc rc2 : ResourceChange)
    (haddr : rc.address = rc2.address)
    (hreason : rc.actionReason = rc2.actionReason)
    (hacts : rc.change.actions = rc2.change.actions)
    (hclass : summarizeActions rc.change.actions = "update" ∨
      summarizeActions rc.change.actions = "replace (delete, create)" ∨
      summarizeActions rc.change.actions = "replace (create, delete)")
    (hnb : topKeysNodup rc.change.before) (hna : topKeysNodup rc.change.after)
    (hb : canon rc.change.before = canon rc2.change.before)
    (ha : canon rc.change.after = canon rc2.change.after) :
    writeResourceChange rc = writeResourceChange rc2 := by
  have hbody : attrBody rc.change.before rc.change.after
      (summarizeActions rc.change.actions) =
      attrBody rc2.change.before rc2.change.after
      (summarizeActions rc.change.actions) := by
    by_cases hob : isObjB rc.change.before = true
    · obtain ⟨bm, hbm⟩ := isObjB_true hob
      have hob2 : isObjB rc2.change.before = true := by rw [← canon_isObj hb]; exact hob
      obtain ⟨bm2, hbm2⟩ := isObjB_true hob2
      by_cases hoa : isObjB rc.change.after = true
      · obtain ⟨am, ham⟩ := isObjB_true hoa
        have hoa2 : isObjB rc2.change.after = true := by rw [← canon_isObj ha]; exact hoa
        obtain ⟨am2, ham2⟩ := isObjB_true hoa2
        rw [hbm, ham, hbm2, ham2]
        rw [attrBody_update _ _ _ hclass, attrBody_update _ _ _ hclass]
        show writeDiff bm am 0 = writeDiff bm2 am2 0
        apply writeDiff_congr
        · rw [hbm] at hnb
          exact hnb
        · rw [ham] at hna
          exact hna
        · rw [← hbm, ← hbm2]
          exact hb
        · rw [← ham, ← ham2]
          exact ha
      · have hoaF : isObjB rc.change.after = false := by simpa using hoa
        have hoa2F : isObjB rc2.change.after = false := by
          rw [← canon_isObj ha]
          exact hoaF
        rw [attrBody_update_not_obj _ hclass (Or.inr hoaF),
          attrBody_update_not_obj _ hclass (Or.inr hoa2F)]
    · have hobF : isObjB rc.change.before = false := by simpa using hob
      have hob2F : isObjB rc2.change.before = false := by
        rw [← canon_isObj hb]
        exact hobF
      rw [attrBody_update_not_obj _ hclass (Or.inl hobF),
        attrBody_update_not_obj _ hclass (Or.inl hob2F)]
  have hd : buildAttributeDiff rc.change.before rc.change.after
      (summarizeActions rc.change.actions) =
      buildAttributeDiff rc2.change.before rc2.change.after
      (summarizeActions rc2.change.actions) := by
    rw [← hacts]
    simp only [buildAttributeDiff, hbody]
  simp only [writeResourceChange]
  rw [haddr, hreason, hd, hacts]

/-- Counterexample to C2 as frozen: two create records whose after maps are
equal mappings in different binding orders render differently. -/
theorem claim_C2_counterexample :
    rcCreateAB.address = rcCreateBA.address ∧
    rcCreateAB.actionReason = rcCreateBA.actionReason ∧
    rcCreateAB.change.actions = rcCreateBA.change.actions ∧
    rcCreateAB.change.before = rcCreateBA.change.before ∧
    canon rcCreateAB.change.after = canon rcCreateBA.change.after ∧
    topKeysNodup rcCreateAB.change.after ∧
    topKeysNodup rcCreateBA.change.after ∧
    writeResourceChange rcCreateAB ≠ writeResourceChange rcCreateBA :=
  ⟨rfl, rfl, rfl, rfl, rfl, by decide, by decide, by decide⟩

/-- Witness for the amended C2 at a concrete update record, with the two
mappings presented in opposite binding orders. -/
theorem claim_C2_amended_witness :
    summarizeActions rcUpd1.change.actions = "update" ∧
    canon rcUpd1.change.before = canon rcUpd2.change.before ∧
    canon rcUpd1.change.after = canon rcUpd2.change.after ∧
    writeResourceChange rcUpd1 = writeResourceChange rcUpd2 := by
  refine ⟨by decide, rfl, rfl, ?_⟩
  exact claim_C2_amended rcUpd1 rcUpd2 rfl rfl rfl (Or.inl (by decide)) (by decide)
    (by decide) rfl rfl

end GetPlanDetails
